import Mathlib

/-!
Shallow embedding of `media/libmedia/MediaScanner.cpp` (Android media scanner
directory walker).  C strings are modelled as `List Char` (the characters up to
the terminating NUL); the shared mutable path buffer is threaded explicitly
through the traversal, and the filesystem is modelled as a tree of directory
entries.  The reporter (`MediaScannerClient::scanFile`) is modelled as a
function from the reported record to the returned status code, and the list of
reports made is part of every traversal result.
-/

namespace MediaScan

/-- C strings: the characters of the buffer up to the terminating NUL. -/
abbrev CStr := List Char

/-- View a Lean string literal as a C string. -/
def str (s : String) : CStr := s.data

/-- ASCII lowercasing of one character, as in `shouldSkipDirectory`:
`(path[i] >= 'A' && path[i] <= 'Z') ? (path[i] - 'A' + 'a') : path[i]`. -/
def lowerChar (c : Char) : Char :=
  if 'A' ≤ c ∧ c ≤ 'Z' then Char.ofNat (c.toNat - 'A'.toNat + 'a'.toNat) else c

/-- The `pathLower` computation in `shouldSkipDirectory`. -/
def toLowerAscii (s : CStr) : CStr := s.map lowerChar

/-- Split a C string at every occurrence of the delimiter, keeping empty
segments (like `String.splitOn`): `",ab" ↦ ["", "ab"]`. -/
def splitOnChar (d : Char) : CStr → List CStr
  | [] => [[]]
  | c :: rest =>
    if c = d then [] :: splitOnChar d rest
    else
      match splitOnChar d rest with
      | [] => [[c]]
      | l :: ls => (c :: l) :: ls

/-- The token sequence produced by `strtok(s, ",")`: comma-separated segments
with empty segments skipped (runs of commas act as one delimiter). -/
def strtokComma (s : CStr) : List CStr :=
  (splitOnChar ',' s).filter (fun t => t ≠ [])

/-- `MediaScanner::loadSkipList`: if the property string is empty the skip
list is disabled (`none`); otherwise keep the raw string as backing storage
together with the lengths of the `strtok` tokens (`mSkipList`, `mSkipIndex`;
the `-1` sentinel is the end of the Lean list). -/
def loadSkipList (prop : CStr) : Option (CStr × List Nat) :=
  if prop = [] then none
  else some (prop, (strtokComma prop).map List.length)

/-- The matching loop over `mSkipIndex` in `shouldSkipDirectory`: a match
needs `len == mSkipIndex[idx]` and `strncmp(path, &mSkipList[startPos], len)
== 0`; `startPos` advances by `mSkipIndex[idx] + 1` for the delimiter. -/
def skipMatchLoop (sl : CStr) (path : CStr) : List Nat → Nat → Bool
  | [], _ => false
  | n :: rest, startPos =>
    if path.length = n ∧ (sl.drop startPos).take n = path then true
    else skipMatchLoop sl path rest (startPos + n + 1)

/-- The lines produced by repeated `getline` on the file contents: each line
includes its trailing newline; a final line without a newline is returned as
is; nothing is returned after the last newline at end of file. -/
def getLines : CStr → List CStr
  | [] => []
  | c :: rest =>
    if c = '\n' then [c] :: getLines rest
    else
      match getLines rest with
      | [] => [[c]]
      | l :: ls => (c :: l) :: ls

/-- The storing loop of `loadWhiteList`: stop once 100 entries are stored,
skip lines of length ≤ 1, and store every other line with its final
character overwritten by NUL (`line[len-1] = '\0'`). -/
def storeWhiteLines : List CStr → Nat → List CStr
  | [], _ => []
  | l :: rest, n =>
    if 100 ≤ n then []
    else if l.length ≤ 1 then storeWhiteLines rest n
    else l.take (l.length - 1) :: storeWhiteLines rest (n + 1)

/-- `loadWhiteList`: the argument is the contents of
`/sdcard/.mediascanner_whitelist` when `fopen` succeeds, `none` when it
fails.  Returns `(isWhiteListMode, whiteList)`. -/
def loadWhiteList : Option CStr → Bool × List CStr
  | none => (false, [])
  | some contents => (true, storeWhiteLines (getLines contents) 0)

/-- The fixed root-prefix table of `shouldSkipDirectory`. -/
def rootPrefixes : List CStr := [str "/storage/emulated/0/", str "/storage/sdcard0/"]

/-- The prefix loop of `shouldSkipDirectory` in whitelist mode: the first
prefix of the lowercased path is applicable and its decision is returned at
once; `l` is `strlen(path)`.  `none` means no prefix was applicable.
(For a path shorter than a prefix the C code's `strncmp` runs into the byte
after the `pathLower` copy, which is never NUL-terminated; the model takes
such a comparison to fail, the deterministic reading of that access.) -/
def wlPrefixLoop (wl : List CStr) (pathLower : CStr) (l : Nat) : List CStr → Option Bool
  | [] => none
  | p :: rest =>
    if p.isPrefixOf pathLower then
      if l = p.length then some false
      else if wl.any (fun d => d.isPrefixOf (pathLower.drop p.length)) then some false
      else some true
    else wlPrefixLoop wl pathLower l rest

/-- The whitelist decision for a path: lowercase it and run the prefix loop
over the fixed root prefixes. -/
def shouldSkipWhiteList (wl : List CStr) (path : CStr) : Option Bool :=
  wlPrefixLoop wl (toLowerAscii path) path.length rootPrefixes

/-- The process-wide configuration consulted by `shouldSkipDirectory`:
the contents of the whitelist file (`none` when it cannot be opened) and the
`testing.mediascanner.skiplist` property value. -/
structure Config where
  whiteListFile : Option CStr
  skipProp : CStr

/-- `MediaScanner::shouldSkipDirectory`: in whitelist mode an applicable
prefix decision is returned at once; otherwise (not in whitelist mode, or no
prefix applicable) the skip list is consulted; with no skip list the answer
is `false`. -/
def shouldSkipDirectory (cfg : Config) (path : CStr) : Bool :=
  let wlState := loadWhiteList cfg.whiteListFile
  match (if wlState.1 then shouldSkipWhiteList wlState.2 path else none) with
  | some b => b
  | none =>
    match loadSkipList cfg.skipProp with
    | none => false
    | some p => skipMatchLoop p.1 path p.2 0

/-- One `dirent` together with the filesystem state behind it.
`file` is an entry whose (possibly `stat`-resolved) type is `DT_REG`, with the
`st_mtime` and `st_size` the `stat` in the file branch yields.  `dir` is an
entry whose type is `DT_DIR`: `statOk` tells whether the `stat` before
reporting succeeds, `modTime` its `st_mtime`, `readable` whether `opendir`
on it succeeds, `hasNoScan`/`hasNoMedia` whether `.noscanandnomtp` /
`.nomedia` exist directly inside it, and `entries` what `readdir` returns in
order.  `special` is an entry whose resolved type is neither `DT_REG` nor
`DT_DIR` (symlink, FIFO, socket, or `DT_UNKNOWN` with a failed or
non-file/dir `stat`). -/
inductive FNode where
  | file (name : CStr) (modTime size : Nat) : FNode
  | dir (name : CStr) (statOk : Bool) (modTime : Nat)
      (readable hasNoScan hasNoMedia : Bool) (entries : List FNode) : FNode
  | special (name : CStr) : FNode

/-- The `d_name` of an entry. -/
def FNode.name : FNode → CStr
  | .file n _ _ => n
  | .dir n _ _ _ _ _ _ => n
  | .special n => n

/-- `MediaScanResult`. -/
inductive MediaScanResult where
  | ok
  | skipped
  | error
deriving DecidableEq

/-- One `client.scanFile(path, modTime, size, isDirectory, noMedia)` call. -/
structure Report where
  path : CStr
  modTime : Nat
  size : Nat
  isDirectory : Bool
  noMedia : Bool
deriving DecidableEq

/-- The reporter: maps each `scanFile` call to the `status_t` it returns
(0 is success). -/
abbrev Client := Report → Nat

/-- Result of a traversal step: the `MediaScanResult`, the `scanFile` calls
made (in order), and the final contents of the shared path buffer. -/
abbrev ScanOut := MediaScanResult × List Report × CStr

mutual

/-- `MediaScanner::doProcessDirectory` on the directory whose attributes are
`readable`/`hasNoScan`/`hasNoMedia`/`entries`; `buf` is the current contents
of the path buffer (ending in `/`), `fileSpot` its length. -/
def doProcessDirectory (cfg : Config) (client : Client)
    (readable hasNoScan hasNoMedia : Bool) (entries : List FNode)
    (buf : CStr) (pathRemaining : Int) (noMedia : Bool) : ScanOut :=
  if shouldSkipDirectory cfg buf then (.ok, [], buf)
  else if 15 ≤ pathRemaining ∧ hasNoScan = true then
    (.skipped, [], buf ++ str ".noscanandnomtp")
  else
    let noMedia1 := noMedia || (decide (8 ≤ pathRemaining) && hasNoMedia)
    if readable = false then (.skipped, [], buf)
    else doProcessEntries cfg client buf.length pathRemaining noMedia1 entries buf
termination_by sizeOf entries + 1

/-- The `readdir` loop of `doProcessDirectory`: process entries in order in
buffer `b`; an `MEDIA_SCAN_RESULT_ERROR` from an entry sets the result and
breaks; any other entry result leaves the result `OK`. -/
def doProcessEntries (cfg : Config) (client : Client)
    (fileSpot : Nat) (pathRemaining : Int) (noMedia : Bool) :
    List FNode → CStr → ScanOut
  | [], b => (.ok, [], b)
  | e :: rest, b =>
    let r := doProcessDirectoryEntry cfg client b fileSpot pathRemaining noMedia e
    if r.1 = .error then (.error, r.2.1, r.2.2)
    else
      let r2 := doProcessEntries cfg client fileSpot pathRemaining noMedia rest r.2.2
      (r2.1, r.2.1 ++ r2.2.1, r2.2.2)
termination_by es _ => sizeOf es

/-- `MediaScanner::doProcessDirectoryEntry`: skip `.`/`..` and over-long
names; `strcpy(fileSpot, name)` writes the name over whatever follows the
parent prefix; directories are reported (when `stat` succeeds) and recursed
into, files are reported, other kinds fall through with `OK`. -/
def doProcessDirectoryEntry (cfg : Config) (client : Client)
    (buf : CStr) (fileSpot : Nat) (pathRemaining : Int) (noMedia : Bool)
    (entry : FNode) : ScanOut :=
    if entry.name = str "." ∨ entry.name = str ".." then (.skipped, [], buf)
    else if pathRemaining < (entry.name.length : Int) + 1 then (.skipped, [], buf)
    else
      match entry with
      | .file name modTime size =>
        let b1 := buf.take fileSpot ++ name
        let rep : Report := ⟨b1, modTime, size, false, noMedia⟩
        if client rep ≠ 0 then (.error, [rep], b1) else (.ok, [rep], b1)
      | .special name =>
        (.ok, [], buf.take fileSpot ++ name)
      | .dir name statOk modTime readable hasNoScan hasNoMedia entries =>
        let b1 := buf.take fileSpot ++ name
        let childNoMedia := noMedia || decide (name.headD ' ' = '.')
        let rep : Report := ⟨b1, modTime, 0, true, childNoMedia⟩
        if statOk = true ∧ client rep ≠ 0 then (.error, [rep], b1)
        else
          let reps0 := if statOk then [rep] else []
          let r := doProcessDirectory cfg client readable hasNoScan hasNoMedia entries
              (b1 ++ [ '/' ]) (pathRemaining - name.length - 1) childNoMedia
          if r.1 = .error then (.error, reps0 ++ r.2.1, r.2.2)
          else (.ok, reps0 ++ r.2.1, r.2.2)
termination_by sizeOf entry

end

/-- `PATH_MAX` on the target platform. -/
def PATH_MAX : Nat := 4096

/-- The buffer contents `processDirectory` hands to `doProcessDirectory`:
the root path with a `/` appended when missing. -/
def normalizePath (path : CStr) : CStr :=
  if 0 < path.length ∧ path.getLast? ≠ some '/' then path ++ [ '/' ] else path

/-- The `pathRemaining` value `processDirectory` hands to
`doProcessDirectory`. -/
def normalizeRemaining (path : CStr) : Int :=
  if 0 < path.length ∧ path.getLast? ≠ some '/' then
    (PATH_MAX : Int) - path.length - 1
  else (PATH_MAX : Int) - path.length

/-- `MediaScanner::processDirectory` on a root directory with the given
attributes: over-long root paths are `Skipped` outright; otherwise normalize
into the path buffer and run the recursive walker with `noMedia = false`.
(The allocation of the path buffer is assumed to succeed.) -/
def processDirectory (cfg : Config) (client : Client)
    (readable hasNoScan hasNoMedia : Bool) (entries : List FNode)
    (path : CStr) : MediaScanResult × List Report :=
  if PATH_MAX ≤ path.length then (.skipped, [])
  else
    let r := doProcessDirectory cfg client readable hasNoScan hasNoMedia entries
        (normalizePath path) (normalizeRemaining path) false
    (r.1, r.2.1)

/-- Helper: no traversal step ever modifies the buffer below the parent
prefix: every output buffer agrees with the input buffer on every prefix of
length at most the `fileSpot` the names are written at. -/
theorem buffer_prefix_preserved (cfg : Config) (client : Client) :
    (∀ (readable hasNoScan hasNoMedia : Bool) (entries : List FNode) (buf : CStr)
        (pathRemaining : Int) (noMedia : Bool),
      ∀ k, k ≤ buf.length →
        (doProcessDirectory cfg client readable hasNoScan hasNoMedia entries
            buf pathRemaining noMedia).2.2.take k = buf.take k) ∧
    (∀ (fileSpot : Nat) (pathRemaining : Int) (noMedia : Bool) (es : List FNode) (b : CStr),
      ∀ k, k ≤ fileSpot → k ≤ b.length →
        (doProcessEntries cfg client fileSpot pathRemaining noMedia es b).2.2.take k
          = b.take k) ∧
    (∀ (buf : CStr) (fileSpot : Nat) (pathRemaining : Int) (noMedia : Bool) (entry : FNode),
      ∀ k, k ≤ fileSpot → k ≤ buf.length →
        (doProcessDirectoryEntry cfg client buf fileSpot pathRemaining noMedia entry).2.2.take k
          = buf.take k) := by
  refine doProcessDirectory.mutual_induct cfg client _ _ _
    ?g1 ?g2 ?g3 ?g4 ?g5 ?g6 ?g7 ?g8 ?g9 ?g10 ?g11 ?g12 ?g13 ?g14 ?g15
  case g1 =>
    intro rd hns hnm es buf rem nm h k hk
    simp [doProcessDirectory, h]
  case g2 =>
    intro rd hns hnm es buf rem nm h1 h2 k hk
    simp [doProcessDirectory, h1, h2, List.take_append_of_le_length hk]
  case g3 =>
    intro hns hnm es buf rem nm h1 h2 k hk
    simp [doProcessDirectory, h1, h2]
  case g4 =>
    intro rd hns hnm es buf rem nm h1 h2 nm1 h3 ih k hk
    simp only [doProcessDirectory]
    rw [if_neg h1, if_neg h2, if_neg h3]
    exact ih k hk hk
  case g5 =>
    intro fs rem nm b k hk1 hk2
    simp [doProcessEntries]
  case g6 =>
    intro fs rem nm e rest b r herr ih k hk1 hk2
    have hre : (doProcessDirectoryEntry cfg client b fs rem nm e).1 = MediaScanResult.error := herr
    simp only [doProcessEntries]
    rw [if_pos hre]
    exact ih k hk1 hk2
  case g7 =>
    intro fs rem nm e rest b r herr ih1 ih2 k hk1 hk2
    have hre : ¬ (doProcessDirectoryEntry cfg client b fs rem nm e).1 = MediaScanResult.error := herr
    have h1 : List.take k (doProcessDirectoryEntry cfg client b fs rem nm e).2.2 = List.take k b :=
      ih1 k hk1 hk2
    have hlen : k ≤ (doProcessDirectoryEntry cfg client b fs rem nm e).2.2.length := by
      have hl := congrArg List.length h1
      simp only [List.length_take] at hl
      omega
    have h2 : List.take k (doProcessEntries cfg client fs rem nm rest
          (doProcessDirectoryEntry cfg client b fs rem nm e).2.2).2.2
        = List.take k (doProcessDirectoryEntry cfg client b fs rem nm e).2.2 :=
      ih2 k hk1 hlen
    simp only [doProcessEntries]
    rw [if_neg hre]
    simpa using h2.trans h1
  case g8 =>
    intro buf fs rem nm e h k hk1 hk2
    cases e <;> rw [doProcessDirectoryEntry, if_pos h]
  case g9 =>
    intro buf fs rem nm e h1 h2 k hk1 hk2
    cases e <;> rw [doProcessDirectoryEntry, if_neg h1, if_pos h2]
  case g10 =>
    intro buf fs rem nm name mt sz b1 rep hcl h1 h2 k hk1 hk2
    rw [doProcessDirectoryEntry, if_neg h1, if_neg h2]
    simp only [if_pos hcl]
    rw [List.take_append_of_le_length, List.take_take, Nat.min_eq_left hk1]
    simp [List.length_take]
    omega
  case g11 =>
    intro buf fs rem nm name mt sz b1 rep hcl h1 h2 k hk1 hk2
    rw [doProcessDirectoryEntry, if_neg h1, if_neg h2]
    simp only [if_neg hcl]
    rw [List.take_append_of_le_length, List.take_take, Nat.min_eq_left hk1]
    simp [List.length_take]
    omega
  case g12 =>
    intro buf fs rem nm name h1 h2 k hk1 hk2
    rw [doProcessDirectoryEntry, if_neg h1, if_neg h2]
    rw [List.take_append_of_le_length, List.take_take, Nat.min_eq_left hk1]
    simp [List.length_take]
    omega
  case g13 =>
    intro buf fs rem nm name statOk mt rd hns hnm es b1 cnm rep hrep h1 h2 k hk1 hk2
    rw [doProcessDirectoryEntry, if_neg h1, if_neg h2]
    simp only [if_pos hrep]
    rw [List.take_append_of_le_length, List.take_take, Nat.min_eq_left hk1]
    simp [List.length_take]
    omega
  case g14 =>
    intro buf fs rem nm name statOk mt rd hns hnm es b1 cnm rep hrep r herr h1 h2 ih k hk1 hk2
    rw [doProcessDirectoryEntry, if_neg h1, if_neg h2]
    simp only [if_neg hrep, if_pos herr]
    have hb1 : k ≤ (List.take fs buf ++ name ++ ['/']).length := by
      simp [List.length_take]
      omega
    rw [ih k hb1]
    rw [List.append_assoc, List.take_append_of_le_length, List.take_take, Nat.min_eq_left hk1]
    simp [List.length_take]
    omega
  case g15 =>
    intro buf fs rem nm name statOk mt rd hns hnm es b1 cnm rep hrep r herr h1 h2 ih k hk1 hk2
    rw [doProcessDirectoryEntry, if_neg h1, if_neg h2]
    simp only [if_neg hrep, if_neg herr]
    have hb1 : k ≤ (List.take fs buf ++ name ++ ['/']).length := by
      simp [List.length_take]
      omega
    rw [ih k hb1]
    rw [List.append_assoc, List.take_append_of_le_length, List.take_take, Nat.min_eq_left hk1]
    simp [List.length_take]
    omega


/-- Helper: the `noMedia` flag is monotone: once a traversal step starts with
`noMedia = true`, every report it makes carries `noMedia = true`. -/
theorem noMedia_monotone (cfg : Config) (client : Client) :
    (∀ (readable hasNoScan hasNoMedia : Bool) (entries : List FNode) (buf : CStr)
        (pathRemaining : Int) (noMedia : Bool),
      noMedia = true →
        ∀ r ∈ (doProcessDirectory cfg client readable hasNoScan hasNoMedia entries
            buf pathRemaining noMedia).2.1, r.noMedia = true) ∧
    (∀ (fileSpot : Nat) (pathRemaining : Int) (noMedia : Bool) (es : List FNode) (b : CStr),
      noMedia = true →
        ∀ r ∈ (doProcessEntries cfg client fileSpot pathRemaining noMedia es b).2.1,
          r.noMedia = true) ∧
    (∀ (buf : CStr) (fileSpot : Nat) (pathRemaining : Int) (noMedia : Bool) (entry : FNode),
      noMedia = true →
        ∀ r ∈ (doProcessDirectoryEntry cfg client buf fileSpot pathRemaining noMedia
            entry).2.1, r.noMedia = true) := by
  refine doProcessDirectory.mutual_induct cfg client _ _ _
    ?g1 ?g2 ?g3 ?g4 ?g5 ?g6 ?g7 ?g8 ?g9 ?g10 ?g11 ?g12 ?g13 ?g14 ?g15
  case g1 =>
    intro rd hns hnm es buf rem nm h hnm'
    simp [doProcessDirectory, h]
  case g2 =>
    intro rd hns hnm es buf rem nm h1 h2 hnm'
    simp only [doProcessDirectory]
    rw [if_neg h1, if_pos h2]
    simp
  case g3 =>
    intro hns hnm es buf rem nm h1 h2 hnm'
    simp only [doProcessDirectory]
    rw [if_neg h1, if_neg h2]
    simp
  case g4 =>
    intro rd hns hnm es buf rem nm h1 h2 nm1 h3 ih hnm'
    simp only [doProcessDirectory]
    rw [if_neg h1, if_neg h2, if_neg h3]
    exact ih (by simp [nm1, hnm'])
  case g5 =>
    intro fs rem nm b hnm'
    simp [doProcessEntries]
  case g6 =>
    intro fs rem nm e rest b r herr ih hnm'
    have hre : (doProcessDirectoryEntry cfg client b fs rem nm e).1 = MediaScanResult.error := herr
    simp only [doProcessEntries]
    rw [if_pos hre]
    exact ih hnm'
  case g7 =>
    intro fs rem nm e rest b r herr ih1 ih2 hnm'
    have hre : ¬ (doProcessDirectoryEntry cfg client b fs rem nm e).1 = MediaScanResult.error :=
      herr
    simp only [doProcessEntries]
    rw [if_neg hre]
    intro rep hmem
    simp only [List.mem_append] at hmem
    rcases hmem with hmem | hmem
    · exact ih1 hnm' rep hmem
    · exact ih2 hnm' rep hmem
  case g8 =>
    intro buf fs rem nm e h hnm'
    cases e <;> rw [doProcessDirectoryEntry, if_pos h] <;> simp
  case g9 =>
    intro buf fs rem nm e h1 h2 hnm'
    cases e <;> rw [doProcessDirectoryEntry, if_neg h1, if_pos h2] <;> simp
  case g10 =>
    intro buf fs rem nm name mt sz b1 rep hcl h1 h2 hnm'
    have hcl' : client ⟨List.take fs buf ++ name, mt, sz, false, nm⟩ ≠ 0 := hcl
    rw [doProcessDirectoryEntry, if_neg h1, if_neg h2]
    simp only [if_pos hcl']
    subst hnm'
    simp
  case g11 =>
    intro buf fs rem nm name mt sz b1 rep hcl h1 h2 hnm'
    have hcl' : ¬ client ⟨List.take fs buf ++ name, mt, sz, false, nm⟩ ≠ 0 := hcl
    rw [doProcessDirectoryEntry, if_neg h1, if_neg h2]
    simp only [if_neg hcl']
    subst hnm'
    simp
  case g12 =>
    intro buf fs rem nm name h1 h2 hnm'
    rw [doProcessDirectoryEntry, if_neg h1, if_neg h2]
    simp
  case g13 =>
    intro buf fs rem nm name statOk mt rd hns hnm es b1 cnm rep hrep h1 h2 hnm'
    have hrep' : statOk = true ∧
        client ⟨List.take fs buf ++ name, mt, 0, true,
          nm || decide (List.headD name ' ' = '.')⟩ ≠ 0 := hrep
    rw [doProcessDirectoryEntry, if_neg h1, if_neg h2]
    simp only [if_pos hrep']
    subst hnm'
    simp
  case g14 =>
    intro buf fs rem nm name statOk mt rd hns hnm es b1 cnm rep hrep r herr h1 h2 ih hnm'
    have hrep' : ¬ (statOk = true ∧
        client ⟨List.take fs buf ++ name, mt, 0, true,
          nm || decide (List.headD name ' ' = '.')⟩ ≠ 0) := hrep
    have herr' : (doProcessDirectory cfg client rd hns hnm es
        (List.take fs buf ++ name ++ ['/']) (rem - name.length - 1)
        (nm || decide (List.headD name ' ' = '.'))).1 = MediaScanResult.error := herr
    rw [doProcessDirectoryEntry, if_neg h1, if_neg h2]
    simp only [if_neg hrep', if_pos herr']
    subst hnm'
    intro rep hmem
    simp only [List.mem_append] at hmem
    rcases hmem with hmem | hmem
    · rcases Bool.eq_false_or_eq_true statOk with hst | hst <;>
        simp [hst] at hmem <;> simp [hmem]
    · exact ih rfl rep hmem
  case g15 =>
    intro buf fs rem nm name statOk mt rd hns hnm es b1 cnm rep hrep r herr h1 h2 ih hnm'
    have hrep' : ¬ (statOk = true ∧
        client ⟨List.take fs buf ++ name, mt, 0, true,
          nm || decide (List.headD name ' ' = '.')⟩ ≠ 0) := hrep
    have herr' : ¬ (doProcessDirectory cfg client rd hns hnm es
        (List.take fs buf ++ name ++ ['/']) (rem - name.length - 1)
        (nm || decide (List.headD name ' ' = '.'))).1 = MediaScanResult.error := herr
    rw [doProcessDirectoryEntry, if_neg h1, if_neg h2]
    simp only [if_neg hrep', if_neg herr']
    subst hnm'
    intro rep hmem
    simp only [List.mem_append] at hmem
    rcases hmem with hmem | hmem
    · rcases Bool.eq_false_or_eq_true statOk with hst | hst <;>
        simp [hst] at hmem <;> simp [hmem]
    · exact ih rfl rep hmem

/-- Helper: when the client accepts every report, no traversal step ever
returns `MEDIA_SCAN_RESULT_ERROR`: a nonzero reporter status is the only
fatal condition. -/
theorem error_only_from_client (cfg : Config) (client : Client)
    (hcl : ∀ rep, client rep = 0) :
    (∀ (readable hasNoScan hasNoMedia : Bool) (entries : List FNode) (buf : CStr)
        (pathRemaining : Int) (noMedia : Bool),
      (doProcessDirectory cfg client readable hasNoScan hasNoMedia entries
          buf pathRemaining noMedia).1 ≠ MediaScanResult.error) ∧
    (∀ (fileSpot : Nat) (pathRemaining : Int) (noMedia : Bool) (es : List FNode) (b : CStr),
      (doProcessEntries cfg client fileSpot pathRemaining noMedia es b).1
        ≠ MediaScanResult.error) ∧
    (∀ (buf : CStr) (fileSpot : Nat) (pathRemaining : Int) (noMedia : Bool) (entry : FNode),
      (doProcessDirectoryEntry cfg client buf fileSpot pathRemaining noMedia entry).1
        ≠ MediaScanResult.error) := by
  refine doProcessDirectory.mutual_induct cfg client _ _ _
    ?e1 ?e2 ?e3 ?e4 ?e5 ?e6 ?e7 ?e8 ?e9 ?e10 ?e11 ?e12 ?e13 ?e14 ?e15
  case e1 =>
    intro rd hns hnm es buf rem nm h
    simp [doProcessDirectory, h]
  case e2 =>
    intro rd hns hnm es buf rem nm h1 h2
    simp only [doProcessDirectory]
    rw [if_neg h1, if_pos h2]
    simp
  case e3 =>
    intro hns hnm es buf rem nm h1 h2
    simp only [doProcessDirectory]
    rw [if_neg h1, if_neg h2]
    simp
  case e4 =>
    intro rd hns hnm es buf rem nm h1 h2 nm1 h3 ih
    simp only [doProcessDirectory]
    rw [if_neg h1, if_neg h2, if_neg h3]
    exact ih
  case e5 =>
    intro fs rem nm b
    simp [doProcessEntries]
  case e6 =>
    intro fs rem nm e rest b r herr ih
    exact absurd herr ih
  case e7 =>
    intro fs rem nm e rest b r herr ih1 ih2
    have hre : ¬ (doProcessDirectoryEntry cfg client b fs rem nm e).1 = MediaScanResult.error :=
      herr
    simp only [doProcessEntries]
    rw [if_neg hre]
    exact ih2
  case e8 =>
    intro buf fs rem nm e h
    cases e <;> rw [doProcessDirectoryEntry, if_pos h] <;> simp
  case e9 =>
    intro buf fs rem nm e h1 h2
    cases e <;> rw [doProcessDirectoryEntry, if_neg h1, if_pos h2] <;> simp
  case e10 =>
    intro buf fs rem nm name mt sz b1 rep hcl0 h1 h2
    exact absurd (hcl ⟨List.take fs buf ++ name, mt, sz, false, nm⟩) hcl0
  case e11 =>
    intro buf fs rem nm name mt sz b1 rep hcl0 h1 h2
    have hcl' : ¬ client ⟨List.take fs buf ++ name, mt, sz, false, nm⟩ ≠ 0 := hcl0
    rw [doProcessDirectoryEntry, if_neg h1, if_neg h2]
    simp only [if_neg hcl']
    simp
  case e12 =>
    intro buf fs rem nm name h1 h2
    rw [doProcessDirectoryEntry, if_neg h1, if_neg h2]
    simp
  case e13 =>
    intro buf fs rem nm name statOk mt rd hns hnm es b1 cnm rep hrep h1 h2
    exact absurd (hcl ⟨List.take fs buf ++ name, mt, 0, true,
      nm || decide (List.headD name ' ' = '.')⟩) hrep.2
  case e14 =>
    intro buf fs rem nm name statOk mt rd hns hnm es b1 cnm rep hrep r herr h1 h2 ih
    exact absurd herr ih
  case e15 =>
    intro buf fs rem nm name statOk mt rd hns hnm es b1 cnm rep hrep r herr h1 h2 ih
    have hrep' : ¬ (statOk = true ∧
        client ⟨List.take fs buf ++ name, mt, 0, true,
          nm || decide (List.headD name ' ' = '.')⟩ ≠ 0) := hrep
    have herr' : ¬ (doProcessDirectory cfg client rd hns hnm es
        (List.take fs buf ++ name ++ ['/']) (rem - name.length - 1)
        (nm || decide (List.headD name ' ' = '.'))).1 = MediaScanResult.error := herr
    rw [doProcessDirectoryEntry, if_neg h1, if_neg h2]
    simp only [if_neg hrep', if_neg herr']
    simp

/-- Rejoin segments with the delimiter: left inverse of `splitOnChar`. -/
def joinChar (d : Char) : List CStr → CStr
  | [] => []
  | [t] => t
  | t :: t2 :: ts => t ++ d :: joinChar d (t2 :: ts)

theorem splitOnChar_ne_nil (d : Char) (s : CStr) : splitOnChar d s ≠ [] := by
  cases s with
  | nil => simp [splitOnChar]
  | cons c rest =>
    simp only [splitOnChar]
    split
    · simp
    · split
      · simp
      · simp

theorem joinChar_splitOnChar (d : Char) (s : CStr) :
    joinChar d (splitOnChar d s) = s := by
  induction s with
  | nil => rfl
  | cons c rest ih =>
    simp only [splitOnChar]
    by_cases hc : c = d
    · rw [if_pos hc]
      subst hc
      rcases hsp : splitOnChar c rest with _ | ⟨l, ls⟩
      · exact absurd hsp (splitOnChar_ne_nil c rest)
      · rw [hsp] at ih
        simp only [joinChar]
        rw [ih]
        rfl
    · rw [if_neg hc]
      rcases hsp : splitOnChar d rest with _ | ⟨l, ls⟩
      · exact absurd hsp (splitOnChar_ne_nil d rest)
      · rw [hsp] at ih
        cases ls with
        | nil => simp only [joinChar] at ih ⊢; rw [ih]
        | cons l2 ls2 => simp only [joinChar] at ih ⊢; rw [List.cons_append, ih]

theorem skipMatchLoop_nil (sl path : CStr) (s : Nat) :
    skipMatchLoop sl path [] s = false := rfl

theorem skipMatchLoop_cons (sl path : CStr) (n : Nat) (rest : List Nat) (s : Nat) :
    skipMatchLoop sl path (n :: rest) s =
      if path.length = n ∧ (sl.drop s).take n = path then true
      else skipMatchLoop sl path rest (s + n + 1) := rfl

theorem skipMatchLoop_drop (path : CStr) :
    ∀ (idx : List Nat) (sl : CStr) (s : Nat),
      skipMatchLoop sl path idx s = skipMatchLoop (sl.drop s) path idx 0 := by
  intro idx
  induction idx with
  | nil => intro sl s; rfl
  | cons n rest ih =>
    intro sl s
    rw [skipMatchLoop_cons, skipMatchLoop_cons, List.drop_zero]
    by_cases hc : path.length = n ∧ (sl.drop s).take n = path
    · rw [if_pos hc, if_pos hc]
    · rw [if_neg hc, if_neg hc]
      rw [ih sl (s + n + 1), ih (sl.drop s) (0 + n + 1)]
      rw [List.drop_drop]
      congr 2
      omega

theorem skipMatchLoop_join (path : CStr) :
    ∀ (ts : List CStr), (∀ t ∈ ts, t ≠ []) →
      skipMatchLoop (joinChar ',' ts) path (ts.map List.length) 0
        = ts.any (fun t => decide (t = path)) := by
  intro ts
  induction ts with
  | nil => intro _; rfl
  | cons t ts ih =>
    intro hne
    cases ts with
    | nil =>
      simp only [joinChar, List.map_cons, List.map_nil]
      rw [skipMatchLoop_cons, List.drop_zero, List.take_length]
      by_cases hp : t = path
      · subst hp
        rw [if_pos ⟨rfl, rfl⟩]
        simp
      · have hcond : ¬ (path.length = t.length ∧ t = path) := fun hcon => hp hcon.2
        rw [if_neg hcond, skipMatchLoop_nil]
        simp [hp]
    | cons t2 ts2 =>
      simp only [joinChar, List.map_cons]
      rw [skipMatchLoop_cons, List.drop_zero]
      have htake : (t ++ ',' :: joinChar ',' (t2 :: ts2)).take t.length = t :=
        List.take_left t (',' :: joinChar ',' (t2 :: ts2))
      rw [htake]
      by_cases hp : t = path
      · subst hp
        rw [if_pos ⟨rfl, rfl⟩]
        simp
      · have hcond : ¬ (path.length = t.length ∧ t = path) := fun hcon => hp hcon.2
        rw [if_neg hcond]
        rw [skipMatchLoop_drop path (List.length t2 :: List.map List.length ts2)]
        have hdrop : (t ++ ',' :: joinChar ',' (t2 :: ts2)).drop (0 + t.length + 1)
            = joinChar ',' (t2 :: ts2) := by
          have heq : t ++ ',' :: joinChar ',' (t2 :: ts2)
              = (t ++ [',']) ++ joinChar ',' (t2 :: ts2) := by simp
          rw [heq]
          have hl : 0 + t.length + 1 = (t ++ [',']).length := by simp
          rw [hl, List.drop_left]
        rw [hdrop]
        have ih2 := ih (fun u hu => hne u (List.mem_cons_of_mem t hu))
        simp only [List.map_cons] at ih2
        rw [ih2]
        simp [hp]

/-- Helper: inapplicable prefixes at the front of the prefix table are
passed over by the whitelist loop. -/
theorem wlPrefixLoop_skip_front (wl : List CStr) (pl : CStr) (l : Nat) :
    ∀ (pre ps : List CStr), (∀ q ∈ pre, q.isPrefixOf pl = false) →
      wlPrefixLoop wl pl l (pre ++ ps) = wlPrefixLoop wl pl l ps := by
  intro pre
  induction pre with
  | nil => intro ps _; rfl
  | cons q pre ih =>
    intro ps hq
    simp only [List.cons_append, wlPrefixLoop]
    rw [if_neg (by simp [hq q (List.mem_cons_self q pre)])]
    exact ih ps (fun u hu => hq u (List.mem_cons_of_mem q hu))

theorem wlPrefixLoop_none (wl : List CStr) (pl : CStr) (l : Nat) :
    ∀ (ps : List CStr), (∀ q ∈ ps, q.isPrefixOf pl = false) →
      wlPrefixLoop wl pl l ps = none := by
  intro ps
  induction ps with
  | nil => intro _; rfl
  | cons q ps ih =>
    intro hq
    simp only [wlPrefixLoop]
    rw [if_neg (by simp [hq q (List.mem_cons_self q ps)])]
    exact ih (fun u hu => hq u (List.mem_cons_of_mem q hu))

theorem storeWhiteLines_eq (ls : List CStr) :
    ∀ n, n ≤ 100 →
      storeWhiteLines ls n
        = ((ls.filter (fun l => decide (2 ≤ l.length))).take (100 - n)).map
            (fun l => l.take (l.length - 1)) := by
  induction ls with
  | nil => intro n _; simp [storeWhiteLines]
  | cons l rest ih =>
    intro n hn
    by_cases h100 : 100 ≤ n
    · have : n = 100 := le_antisymm hn h100
      subst this
      simp [storeWhiteLines]
    · simp only [storeWhiteLines]
      rw [if_neg h100]
      by_cases hlen : l.length ≤ 1
      · rw [if_pos hlen]
        have hf : decide (2 ≤ l.length) = false := by simp; omega
        rw [List.filter_cons, hf]
        simp only [Bool.false_eq_true, if_false]
        exact ih n hn
      · rw [if_neg hlen]
        have hf : decide (2 ≤ l.length) = true := by simp; omega
        rw [List.filter_cons, hf]
        simp only [if_true]
        have hsplit : 100 - n = (100 - (n + 1)) + 1 := by omega
        rw [hsplit, List.take_succ_cons, List.map_cons]
        rw [ih (n + 1) (by omega)]


/-! ## Concrete fixtures used by witnesses and counterexamples -/

/-- A configuration with no whitelist file and an empty skip-list property:
every `shouldSkipDirectory` call answers `false`. -/
def cfg0 : Config := ⟨none, []⟩

/-- A reporter that accepts every report. -/
def client0 : Client := fun _ => 0

/-! ## C1 -/

/-- C1: the claim says the parent's path buffer content is restored after
every recursive call.  The code never restores it; what actually holds (and
is proved here) is (a) no traversal step ever modifies the buffer below the
parent's append position `fileSpot`, and (b) the processing of an entry —
its result and the reports it makes — depends on the buffer only through
the prefix of length `fileSpot`, because `strcpy(fileSpot, name)` overwrites
everything above it; hence the next sibling's iteration observes no residue
from the previous child. -/
theorem C1_theorem (cfg : Config) (client : Client) :
    (∀ (readable hasNoScan hasNoMedia : Bool) (entries : List FNode) (buf : CStr)
        (pathRemaining : Int) (noMedia : Bool) (k : Nat), k ≤ buf.length →
      (doProcessDirectory cfg client readable hasNoScan hasNoMedia entries
          buf pathRemaining noMedia).2.2.take k = buf.take k) ∧
    (∀ (fs : Nat) (rem : Int) (nm : Bool) (e : FNode) (b1 b2 : CStr),
      b1.take fs = b2.take fs →
      (doProcessDirectoryEntry cfg client b1 fs rem nm e).1
        = (doProcessDirectoryEntry cfg client b2 fs rem nm e).1 ∧
      (doProcessDirectoryEntry cfg client b1 fs rem nm e).2.1
        = (doProcessDirectoryEntry cfg client b2 fs rem nm e).2.1) := by
  constructor
  · intro rd hns hnm es buf rem nm k hk
    exact (buffer_prefix_preserved cfg client).1 rd hns hnm es buf rem nm k hk
  · intro fs rem nm e b1 b2 h
    cases e <;> rw [doProcessDirectoryEntry, doProcessDirectoryEntry] <;>
      simp only [FNode.name, h] <;>
      exact ⟨by repeat' split <;> try rfl, by repeat' split <;> try rfl⟩

/-- C1 witness: the theorem applied at concrete inputs: two parent buffers
that agree below `fileSpot = 3` produce the same result and reports for the
same entry. -/
theorem C1_witness :
    (doProcessDirectory cfg0 client0 true false false [] (str "/p/") 100
        false).2.2.take 3 = (str "/p/").take 3 ∧
    (doProcessDirectoryEntry cfg0 client0 (str "/p/junk") 3 100 false
        (.file (str "f") 1 2)).1
      = (doProcessDirectoryEntry cfg0 client0 (str "/p/") 3 100 false
        (.file (str "f") 1 2)).1 := by
  refine ⟨(C1_theorem cfg0 client0).1 true false false [] (str "/p/") 100 false 3 (by decide),
    ((C1_theorem cfg0 client0).2 3 100 false (.file (str "f") 1 2)
      (str "/p/junk") (str "/p/") (by decide)).1⟩

/-- C1 counterexample: processing the entry `c` (a subdirectory containing
the file `f`) from parent buffer `"/p/"` leaves the buffer holding
`"/p/c/f"`, not the `"/p/c/"` it held immediately before the recursive call:
the buffer content is NOT restored after recursion. -/
theorem C1_counterexample :
    (doProcessDirectoryEntry cfg0 client0 (str "/p/") 3 100 false
        (.dir (str "c") true 5 true false false [.file (str "f") 1 2])).2.2
      = str "/p/c/f" ∧ str "/p/c/f" ≠ str "/p/c/" := by
  constructor
  · simp [doProcessDirectoryEntry, doProcessDirectory, doProcessEntries, cfg0, client0,
      shouldSkipDirectory, loadWhiteList, loadSkipList, str, FNode.name]
  · decide

/-! ## C2 -/

/-- C2: corrected form.  (a) A visited regular-file entry triggers exactly
one `scanFile` call; (b) a visited subdirectory entry whose `stat` succeeds
and whose report is accepted triggers exactly one `scanFile` call for
itself, made before its contents are processed; (c) the root directory of a
scan is never reported: scanning an empty directory yields ZERO report
calls (not one) and result `Ok`. -/
theorem C2_theorem (cfg : Config) (client : Client) :
    (∀ (b : CStr) (fs : Nat) (rem : Int) (nm : Bool) (name : CStr) (mt sz : Nat),
      ¬(name = str "." ∨ name = str "..") → ¬(rem < (name.length : Int) + 1) →
      (doProcessDirectoryEntry cfg client b fs rem nm (.file name mt sz)).2.1
        = [⟨b.take fs ++ name, mt, sz, false, nm⟩]) ∧
    (∀ (b : CStr) (fs : Nat) (rem : Int) (nm : Bool) (name : CStr) (mt : Nat)
        (readable hasNoScan hasNoMedia : Bool) (entries : List FNode),
      ¬(name = str "." ∨ name = str "..") → ¬(rem < (name.length : Int) + 1) →
      client ⟨b.take fs ++ name, mt, 0, true, nm || decide (name.headD ' ' = '.')⟩ = 0 →
      (doProcessDirectoryEntry cfg client b fs rem nm
          (.dir name true mt readable hasNoScan hasNoMedia entries)).2.1
        = ⟨b.take fs ++ name, mt, 0, true, nm || decide (name.headD ' ' = '.')⟩ ::
          (doProcessDirectory cfg client readable hasNoScan hasNoMedia entries
            (b.take fs ++ name ++ ['/']) (rem - name.length - 1)
            (nm || decide (name.headD ' ' = '.'))).2.1) ∧
    (∀ (path : CStr), path.length < PATH_MAX →
      shouldSkipDirectory cfg (normalizePath path) = false →
      processDirectory cfg client true false false [] path = (.ok, [])) := by
  refine ⟨?file, ?dir, ?root⟩
  case file =>
    intro b fs rem nm name mt sz h1 h2
    rw [doProcessDirectoryEntry]
    simp only [FNode.name]
    rw [if_neg h1, if_neg h2]
    by_cases hc : client ⟨b.take fs ++ name, mt, sz, false, nm⟩ ≠ 0
    · simp only [if_pos hc]
    · simp only [if_neg hc]
  case dir =>
    intro b fs rem nm name mt rd hns hnm es h1 h2 hcl
    rw [doProcessDirectoryEntry]
    simp only [FNode.name]
    rw [if_neg h1, if_neg h2]
    have hrep : ¬(True ∧ client ⟨b.take fs ++ name, mt, 0, true,
        nm || decide (name.headD ' ' = '.')⟩ ≠ 0) := fun hcon => hcon.2 hcl
    rw [if_neg hrep]
    by_cases herr : (doProcessDirectory cfg client rd hns hnm es
        (List.take fs b ++ name ++ ['/']) (rem - (name.length : Int) - 1)
        (nm || decide (List.headD name ' ' = '.'))).1 = MediaScanResult.error
    · rw [if_pos herr]
      simp
    · rw [if_neg herr]
      simp
  case root =>
    intro path hlen hsk
    rw [processDirectory, if_neg (by omega)]
    simp only [doProcessDirectory]
    rw [if_neg (by simp [hsk]), if_neg (by simp), if_neg (by simp)]
    simp [doProcessEntries]

/-- C2 witness: the theorem applied at concrete inputs: one report for a
file entry, one leading report for a directory entry, and an empty-directory
scan with zero reports and result `Ok`. -/
theorem C2_witness :
    (doProcessDirectoryEntry cfg0 client0 (str "/p/") 3 100 false
        (.file (str "f") 7 9)).2.1 = [⟨(str "/p/").take 3 ++ str "f", 7, 9, false, false⟩] ∧
    (doProcessDirectoryEntry cfg0 client0 (str "/p/") 3 100 false
        (.dir (str "d") true 7 true false false [])).2.1
      = ⟨(str "/p/").take 3 ++ str "d", 7, 0, true,
            false || decide ((str "d").headD ' ' = '.')⟩ ::
          (doProcessDirectory cfg0 client0 true false false []
            ((str "/p/").take 3 ++ str "d" ++ ['/']) (100 - (str "d").length - 1)
            (false || decide ((str "d").headD ' ' = '.'))).2.1 ∧
    processDirectory cfg0 client0 true false false [] (str "/d") = (.ok, []) := by
  refine ⟨(C2_theorem cfg0 client0).1 (str "/p/") 3 100 false (str "f") 7 9
      (by decide) (by decide),
    (C2_theorem cfg0 client0).2.1 (str "/p/") 3 100 false (str "d") 7 true false false []
      (by decide) (by decide) (by decide),
    (C2_theorem cfg0 client0).2.2 (str "/d") (by decide) (by decide)⟩

/-- C2 counterexample: scanning an empty directory does NOT yield exactly
one report call: `processDirectory` never reports the scan root, so the
report list is empty. -/
theorem C2_counterexample :
    ¬ ((processDirectory cfg0 client0 true false false [] (str "/d")).2.length = 1) := by
  have h : processDirectory cfg0 client0 true false false [] (str "/d") = (.ok, []) := by
    simp [processDirectory, doProcessDirectory, doProcessEntries, cfg0, client0,
      shouldSkipDirectory, loadWhiteList, loadSkipList, normalizePath, normalizeRemaining,
      PATH_MAX, str]
  rw [h]
  decide

/-! ## C6 -/

/-- C6: for a directory that the filter rules do not skip, if the remaining
path-buffer capacity allows the marker name (`15 ≤ pathRemaining`) and
`.noscanandnomtp` exists directly inside the directory, the visit returns
`Skipped` before any enumeration — no report is made and the result does not
depend on the directory's entries or readability; if the capacity is
insufficient the marker check is skipped and the directory behaves exactly
as if the marker were absent. -/
theorem C6_theorem (cfg : Config) (client : Client) (readable hasNoMedia : Bool)
    (entries : List FNode) (buf : CStr) (pathRemaining : Int) (noMedia : Bool)
    (hskip : shouldSkipDirectory cfg buf = false) :
    (15 ≤ pathRemaining →
      doProcessDirectory cfg client readable true hasNoMedia entries buf pathRemaining noMedia
        = (.skipped, [], buf ++ str ".noscanandnomtp")) ∧
    (pathRemaining < 15 →
      doProcessDirectory cfg client readable true hasNoMedia entries buf pathRemaining noMedia
        = doProcessDirectory cfg client readable false hasNoMedia entries
            buf pathRemaining noMedia) := by
  constructor
  · intro h15
    rw [doProcessDirectory, if_neg (by simp [hskip]), if_pos ⟨h15, rfl⟩]
  · intro h15
    have hA : ¬(15 ≤ pathRemaining ∧ true = true) := fun hcon => absurd hcon.1 (not_le.mpr h15)
    have hB : ¬(15 ≤ pathRemaining ∧ false = true) := fun hcon => absurd hcon.2 (by decide)
    have hS : ¬(shouldSkipDirectory cfg buf = true) := by simp [hskip]
    rw [doProcessDirectory, doProcessDirectory]
    rw [if_neg hS]
    rw [if_neg hA]
    rw [if_neg hS]
    rw [if_neg hB]

/-- C6 witness: the theorem applied at concrete inputs: a marked directory
with a child is skipped wholesale with no reports when capacity suffices,
and behaves as unmarked when capacity is 10 < 15. -/
theorem C6_witness :
    doProcessDirectory cfg0 client0 true true false [.file (str "f") 1 2]
        (str "/p/") 100 false = (.skipped, [], str "/p/" ++ str ".noscanandnomtp") ∧
    doProcessDirectory cfg0 client0 true true false [.file (str "f") 1 2]
        (str "/p/") 10 false
      = doProcessDirectory cfg0 client0 true false false [.file (str "f") 1 2]
        (str "/p/") 10 false := by
  refine ⟨(C6_theorem cfg0 client0 true false [.file (str "f") 1 2] (str "/p/") 100 false
      (by decide)).1 (by decide),
    (C6_theorem cfg0 client0 true false [.file (str "f") 1 2] (str "/p/") 10 false
      (by decide)).2 (by decide)⟩

/-! ## C10 -/

/-- C10: corrected form.  A directory entry whose resolved kind is neither a
regular file nor a directory is never reported and never recursed into; if
its name (not `.`/`..`) fits in the remaining capacity the processing
returns `Ok` (having only written the name into the buffer), but if the
name does not fit it returns `Skipped`, not `Ok`. -/
theorem C10_theorem (cfg : Config) (client : Client) (b : CStr) (fs : Nat)
    (rem : Int) (nm : Bool) (name : CStr)
    (hdot : ¬(name = str "." ∨ name = str "..")) :
    (¬(rem < (name.length : Int) + 1) →
      doProcessDirectoryEntry cfg client b fs rem nm (.special name)
        = (.ok, [], b.take fs ++ name)) ∧
    (rem < (name.length : Int) + 1 →
      doProcessDirectoryEntry cfg client b fs rem nm (.special name)
        = (.skipped, [], b)) := by
  constructor
  · intro hfit
    rw [doProcessDirectoryEntry]
    simp only [FNode.name]
    rw [if_neg hdot, if_neg hfit]
  · intro hfit
    rw [doProcessDirectoryEntry]
    simp only [FNode.name]
    rw [if_neg hdot, if_pos hfit]

/-- C10 witness: the theorem applied at concrete inputs: a fitting special
entry yields `Ok` with no reports; an over-long special entry yields
`Skipped` with no reports. -/
theorem C10_witness :
    doProcessDirectoryEntry cfg0 client0 (str "/p/") 3 100 false
        (.special (str "fifo")) = (.ok, [], (str "/p/").take 3 ++ str "fifo") ∧
    doProcessDirectoryEntry cfg0 client0 (str "/p/") 3 3 false
        (.special (str "fifo")) = (.skipped, [], str "/p/") := by
  refine ⟨(C10_theorem cfg0 client0 (str "/p/") 3 100 false (str "fifo")
      (by decide)).1 (by decide),
    (C10_theorem cfg0 client0 (str "/p/") 3 3 false (str "fifo")
      (by decide)).2 (by decide)⟩

/-- C10 counterexample: a special entry whose name does not fit in the
remaining capacity returns `Skipped`, so "processing returns Ok" does not
hold for every entry of non-file non-directory kind. -/
theorem C10_counterexample :
    (doProcessDirectoryEntry cfg0 client0 (str "/p/") 3 5 false
        (.special (str "abcdefgh"))).1 = .skipped ∧
    MediaScanResult.skipped ≠ MediaScanResult.ok := by
  constructor
  · simp [doProcessDirectoryEntry, FNode.name, str]
  · decide


/-! ## C3 -/

/-- C3: when the whitelist is consulted and some known root prefix is a
prefix of the ASCII-lowercased path, the first such prefix decides: equal
path means do-not-skip; otherwise do-not-skip iff the remainder after the
prefix starts with some whitelist entry, else skip — and the later prefixes
are never considered (the conclusion does not depend on `rest`). -/
theorem C3_theorem (wl : List CStr) (path p : CStr) (pre rest : List CStr)
    (hsplit : rootPrefixes = pre ++ p :: rest)
    (hpre : ∀ q ∈ pre, q.isPrefixOf (toLowerAscii path) = false)
    (hp : p.isPrefixOf (toLowerAscii path) = true) :
    shouldSkipWhiteList wl path =
      some (if path.length = p.length then false
            else !(wl.any (fun d => d.isPrefixOf ((toLowerAscii path).drop p.length)))) := by
  unfold shouldSkipWhiteList
  rw [hsplit, wlPrefixLoop_skip_front wl (toLowerAscii path) path.length pre (p :: rest) hpre]
  simp only [wlPrefixLoop]
  rw [if_pos (by simp [hp])]
  by_cases hl : path.length = p.length
  · rw [if_pos hl, if_pos hl]
  · rw [if_neg hl, if_neg hl]
    by_cases ha : wl.any (fun d => d.isPrefixOf ((toLowerAscii path).drop p.length)) = true
    · rw [if_pos ha, ha]
      rfl
    · rw [if_neg ha]
      have ha' : wl.any (fun d => d.isPrefixOf ((toLowerAscii path).drop p.length)) = false :=
        Bool.eq_false_iff.mpr ha
      rw [ha']
      rfl

/-- C3 witness: the theorem applied at concrete inputs: under the first
root prefix, `dcim/x` is allowed by whitelist entry `dcim`, and a path equal
to a prefix is allowed; the conclusion is independent of the later prefix. -/
theorem C3_witness :
    shouldSkipWhiteList [str "dcim"] (str "/storage/emulated/0/dcim/x") =
      some (if (str "/storage/emulated/0/dcim/x").length = (str "/storage/emulated/0/").length
            then false
            else !([str "dcim"].any (fun d => d.isPrefixOf
              ((toLowerAscii (str "/storage/emulated/0/dcim/x")).drop
                (str "/storage/emulated/0/").length)))) := by
  exact C3_theorem [str "dcim"] (str "/storage/emulated/0/dcim/x")
    (str "/storage/emulated/0/") [] [str "/storage/sdcard0/"] rfl (by simp) (by decide)

/-! ## C4 -/

/-- C4: corrected form.  When every comma-separated segment of the skip-list
property is nonempty, the `strtok` token lengths stay in sync with the
backing string and a path matches iff it equals one of the comma-separated
entries (so `"a/b"` matches neither `"a/bc"` nor `"xa/b"`, and exhausting
the list yields false).  With empty segments the running offsets desync
from the entries (see the counterexample). -/
theorem C4_theorem (prop path : CStr) (h0 : prop ≠ [])
    (hseg : ∀ t ∈ splitOnChar ',' prop, t ≠ []) :
    (shouldSkipDirectory ⟨none, prop⟩ path = true ↔ path ∈ splitOnChar ',' prop) := by
  have hload : loadSkipList prop = some (prop, (strtokComma prop).map List.length) := by
    unfold loadSkipList
    rw [if_neg h0]
  have hstrtok : strtokComma prop = splitOnChar ',' prop := by
    unfold strtokComma
    apply List.filter_eq_self.mpr
    intro a ha
    simpa using hseg a ha
  simp only [shouldSkipDirectory, loadWhiteList, hload, hstrtok]
  nth_rewrite 1 [← joinChar_splitOnChar ',' prop]
  rw [skipMatchLoop_join path (splitOnChar ',' prop) hseg]
  rw [if_neg (show ¬(false = true) by decide)]
  simp only [List.any_eq_true, decide_eq_true_eq]
  constructor
  · rintro ⟨t, ht, rfl⟩
    exact ht
  · intro hmem
    exact ⟨path, hmem, rfl⟩

/-- C4 witness: the theorem applied at concrete inputs: with the well-formed
skip list `"a/b"`, the candidates `"a/bc"` and `"xa/b"` match iff they are
entries — and they are not. -/
theorem C4_witness :
    (shouldSkipDirectory ⟨none, str "a/b"⟩ (str "a/bc") = true ↔
      str "a/bc" ∈ splitOnChar ',' (str "a/b")) ∧
    (shouldSkipDirectory ⟨none, str "a/b"⟩ (str "xa/b") = true ↔
      str "xa/b" ∈ splitOnChar ',' (str "a/b")) :=
  ⟨C4_theorem (str "a/b") (str "a/bc") (by decide) (by decide),
   C4_theorem (str "a/b") (str "xa/b") (by decide) (by decide)⟩

/-- C4 counterexample: with the skip-list property `",ab"` (an empty first
segment), the `strtok`-derived offsets desync from the comma-separated
entries: the path `",a"` — which equals no entry — is reported as a match,
while the genuine entry `"ab"` is not. -/
theorem C4_counterexample :
    shouldSkipDirectory ⟨none, str ",ab"⟩ (str ",a") = true ∧
    (¬ str ",a" ∈ splitOnChar ',' (str ",ab")) ∧
    shouldSkipDirectory ⟨none, str ",ab"⟩ (str "ab") = false ∧
    str "ab" ∈ splitOnChar ',' (str ",ab") := by
  refine ⟨by decide, by decide, by decide, by decide⟩

/-! ## C7 -/

/-- C7: when whitelist mode is active (the whitelist file opened) and the
whitelist yields a decision for a path, that decision is the final answer of
`shouldSkipDirectory` whatever the skip list holds; and for a path under no
known root prefix the whitelist yields no decision and the answer is the
same as with whitelist mode disabled. -/
theorem C7_theorem (wlf : CStr) (path : CStr) :
    (∀ (b : Bool), shouldSkipWhiteList (loadWhiteList (some wlf)).2 path = some b →
      ∀ (sp : CStr), shouldSkipDirectory ⟨some wlf, sp⟩ path = b) ∧
    ((∀ q ∈ rootPrefixes, q.isPrefixOf (toLowerAscii path) = false) →
      (∀ (wl : List CStr), shouldSkipWhiteList wl path = none) ∧
      (∀ (sp : CStr), shouldSkipDirectory ⟨some wlf, sp⟩ path
        = shouldSkipDirectory ⟨none, sp⟩ path)) := by
  constructor
  · intro b hdec sp
    simp only [shouldSkipDirectory, loadWhiteList] at hdec ⊢
    rw [if_pos trivial, hdec]
  · intro hna
    have hnone : ∀ (wl : List CStr), shouldSkipWhiteList wl path = none := by
      intro wl
      unfold shouldSkipWhiteList
      exact wlPrefixLoop_none wl (toLowerAscii path) path.length rootPrefixes hna
    refine ⟨hnone, ?_⟩
    intro sp
    simp only [shouldSkipDirectory, loadWhiteList]
    rw [if_pos trivial, hnone, if_neg (show ¬(false = true) by decide)]

/-- C7 witness: the theorem applied at concrete inputs: an applicable
whitelist decision (path under the first root prefix, not whitelisted) is
final for two different skip lists, and a path outside the known prefixes
gets no whitelist decision and ignores whitelist mode. -/
theorem C7_witness :
    shouldSkipDirectory ⟨some (str "dcim\n"), str "/data/x,/other"⟩
        (str "/storage/emulated/0/other") = true ∧
    shouldSkipWhiteList [] (str "/data/x") = none ∧
    shouldSkipDirectory ⟨some (str "dcim\n"), str "/data/x"⟩ (str "/data/x")
      = shouldSkipDirectory ⟨none, str "/data/x"⟩ (str "/data/x") := by
  refine ⟨(C7_theorem (str "dcim\n") (str "/storage/emulated/0/other")).1 true (by decide)
      (str "/data/x,/other"),
    ((C7_theorem (str "dcim\n") (str "/data/x")).2 (by decide)).1 [],
    ((C7_theorem (str "dcim\n") (str "/data/x")).2 (by decide)).2 (str "/data/x")⟩

/-! ## C9 -/

/-- C9: corrected form.  Whitelist loading stores, from the first hundred
qualifying lines, every line of length at least two with its FINAL character
removed — the trailing newline when present, but equally the last character
of an unterminated final line (see the counterexample); lines of length at
most one are skipped; at most 100 entries are stored; and when the file
cannot be opened, whitelist mode is off and `shouldSkipDirectory` is
decided by the skip list alone. -/
theorem C9_theorem :
    (∀ (contents : CStr),
      loadWhiteList (some contents)
        = (true, (((getLines contents).filter (fun l => decide (2 ≤ l.length))).take 100).map
            (fun l => l.take (l.length - 1)))) ∧
    loadWhiteList none = (false, []) ∧
    (∀ (sp path : CStr),
      shouldSkipDirectory ⟨none, sp⟩ path
        = (match loadSkipList sp with
           | none => false
           | some pr => skipMatchLoop pr.1 path pr.2 0)) := by
  refine ⟨?_, rfl, ?_⟩
  · intro contents
    simp only [loadWhiteList]
    rw [storeWhiteLines_eq (getLines contents) 0 (by omega)]
  · intro sp path
    rfl

/-- C9 counterexample: a whitelist file whose single line `"abc"` has no
trailing newline is stored as `"ab"`: the final character is removed even
though it is not a newline, so entries are NOT stored with only their
trailing newline trimmed. -/
theorem C9_counterexample :
    loadWhiteList (some (str "abc")) = (true, [str "ab"]) ∧ str "ab" ≠ str "abc" := by
  refine ⟨by decide, by decide⟩


/-! ## C5 -/

/-- C5: corrected form.  (a) The no-media flag is monotone: a traversal
entered with `noMedia = true` reports every file and directory with
`noMedia = true` (the flag is never cleared); (b) a directory containing
`.nomedia` — PROVIDED at least 8 characters of path-buffer capacity remain
so the marker check runs — reports all its contents and descendants with
`noMedia = true` regardless of the inherited flag; (c) a directory entry
whose name starts with `.` is reported (when its `stat` succeeds) with
`noMedia = true` regardless of inherited flag or markers. -/
theorem C5_theorem :
    (∀ (cfg : Config) (client : Client) (readable hasNoScan hasNoMedia : Bool)
        (entries : List FNode) (buf : CStr) (pathRemaining : Int),
      ∀ r ∈ (doProcessDirectory cfg client readable hasNoScan hasNoMedia entries
          buf pathRemaining true).2.1, r.noMedia = true) ∧
    (∀ (cfg : Config) (client : Client) (readable hasNoScan : Bool)
        (entries : List FNode) (buf : CStr) (pathRemaining : Int) (noMedia : Bool),
      8 ≤ pathRemaining →
      ∀ r ∈ (doProcessDirectory cfg client readable hasNoScan true entries
          buf pathRemaining noMedia).2.1, r.noMedia = true) ∧
    (∀ (cfg : Config) (client : Client) (b : CStr) (fs : Nat) (rem : Int) (nm : Bool)
        (name : CStr) (mt : Nat) (readable hasNoScan hasNoMedia : Bool)
        (entries : List FNode),
      ¬(name = str "." ∨ name = str "..") → ¬(rem < (name.length : Int) + 1) →
      name.headD ' ' = '.' →
      (doProcessDirectoryEntry cfg client b fs rem nm
          (.dir name true mt readable hasNoScan hasNoMedia entries)).2.1.head?
        = some ⟨b.take fs ++ name, mt, 0, true, true⟩) := by
  refine ⟨?mono, ?marker, ?hidden⟩
  case mono =>
    intro cfg client rd hns hnm es buf rem
    exact (noMedia_monotone cfg client).1 rd hns hnm es buf rem true rfl
  case marker =>
    intro cfg client rd hns es buf rem nm h8 r hrmem
    by_cases h1 : shouldSkipDirectory cfg buf = true
    · rw [doProcessDirectory, if_pos h1] at hrmem
      simp at hrmem
    · by_cases h2 : 15 ≤ rem ∧ hns = true
      · rw [doProcessDirectory, if_neg h1, if_pos h2] at hrmem
        simp at hrmem
      · by_cases h3 : rd = false
        · rw [doProcessDirectory, if_neg h1, if_neg h2] at hrmem
          simp only [if_pos h3] at hrmem
          simp at hrmem
        · rw [doProcessDirectory, if_neg h1, if_neg h2] at hrmem
          simp only [if_neg h3] at hrmem
          have hb : (nm || decide (8 ≤ rem) && true) = true := by simp [h8]
          rw [hb] at hrmem
          exact (noMedia_monotone cfg client).2.1 buf.length rem true es buf rfl r hrmem
  case hidden =>
    intro cfg client b fs rem nm name mt rd hns hnm es h1 h2 hdotname
    rw [doProcessDirectoryEntry]
    simp only [FNode.name]
    rw [if_neg h1, if_neg h2]
    have hb : (nm || decide (List.headD name ' ' = '.')) = true := by
      rw [hdotname]
      simp
    simp only [hb]
    by_cases hc : client ⟨List.take fs b ++ name, mt, 0, true, true⟩ ≠ 0
    · simp [hc]
    · simp [hc]
      split <;> simp

/-- C5 witness: the theorem applied at concrete inputs: a scan entered with
the flag set reports its file with `noMedia = true`; a `.nomedia` directory
with capacity 100 reports its file with `noMedia = true` although the
inherited flag was false; a hidden directory `.t` is reported with
`noMedia = true`. -/
theorem C5_witness :
    ((⟨str "/p/f", 1, 2, false, true⟩ : Report).noMedia = true) ∧
    ((⟨str "/p/a", 3, 4, false, true⟩ : Report).noMedia = true) ∧
    (doProcessDirectoryEntry cfg0 client0 (str "/p/") 3 100 false
        (.dir (str ".t") true 5 true false false [])).2.1.head?
      = some ⟨(str "/p/").take 3 ++ str ".t", 5, 0, true, true⟩ := by
  refine ⟨?_, ?_, ?_⟩
  · refine C5_theorem.1 cfg0 client0 true false false [.file (str "f") 1 2]
      (str "/p/") 100 ⟨str "/p/f", 1, 2, false, true⟩ ?_
    simp [doProcessDirectory, doProcessEntries, doProcessDirectoryEntry, cfg0, client0,
      shouldSkipDirectory, loadWhiteList, loadSkipList, str, FNode.name]
  · refine C5_theorem.2.1 cfg0 client0 true false [.file (str "a") 3 4]
      (str "/p/") 100 false (by decide) ⟨str "/p/a", 3, 4, false, true⟩ ?_
    simp [doProcessDirectory, doProcessEntries, doProcessDirectoryEntry, cfg0, client0,
      shouldSkipDirectory, loadWhiteList, loadSkipList, str, FNode.name]
  · exact C5_theorem.2.2 cfg0 client0 (str "/p/") 3 100 false (str ".t") 5
      true false false [] (by decide) (by decide) (by decide)

/-- C5 counterexample: a directory that does contain the `.nomedia` marker
but is visited with only 5 characters of remaining capacity never runs the
marker check: its file is reported with `noMedia = false`, so the marker
does not yield `noMedia = true` for every contained file. -/
theorem C5_counterexample :
    (doProcessDirectory cfg0 client0 true false true [.file (str "a") 1 2]
        (str "/p/") 5 false).2.1 = [⟨str "/p/a", 1, 2, false, false⟩] ∧
    false ≠ true := by
  constructor
  · simp [doProcessDirectory, doProcessEntries, doProcessDirectoryEntry, cfg0, client0,
      shouldSkipDirectory, loadWhiteList, loadSkipList, str, FNode.name]
  · decide

/-! ## C8 -/

/-- C8: (i) an over-length root path yields `Skipped` with no reports;
(ii) an entry whose name does not fit the remaining capacity yields
`Skipped` with no reports and no buffer change; (iii) an unreadable
directory (that the filters and the full-exclusion marker did not already
handle) yields `Skipped` with no reports; (iv) an entry returning `Error`
short-circuits the enumeration — the remaining siblings are never examined;
(v) a non-`Error` entry result is absorbed: the level's result is that of
the remaining siblings; (vi) an `Error` from the recursion into a
subdirectory propagates out of the entry unchanged; (vii) a nonzero
reporter status is the only fatal condition: with an always-accepting
client no traversal step returns `Error`. -/
theorem C8_theorem (cfg : Config) (client : Client) :
    (∀ (readable hasNoScan hasNoMedia : Bool) (entries : List FNode) (path : CStr),
      PATH_MAX ≤ path.length →
      processDirectory cfg client readable hasNoScan hasNoMedia entries path
        = (.skipped, [])) ∧
    (∀ (b : CStr) (fs : Nat) (rem : Int) (nm : Bool) (e : FNode),
      rem < (e.name.length : Int) + 1 →
      doProcessDirectoryEntry cfg client b fs rem nm e = (.skipped, [], b)) ∧
    (∀ (hasNoScan hasNoMedia : Bool) (entries : List FNode) (buf : CStr)
        (pathRemaining : Int) (noMedia : Bool),
      shouldSkipDirectory cfg buf = false → ¬(15 ≤ pathRemaining ∧ hasNoScan = true) →
      doProcessDirectory cfg client false hasNoScan hasNoMedia entries
          buf pathRemaining noMedia = (.skipped, [], buf)) ∧
    (∀ (fs : Nat) (rem : Int) (nm : Bool) (e : FNode) (rest : List FNode) (b : CStr),
      (doProcessDirectoryEntry cfg client b fs rem nm e).1 = MediaScanResult.error →
      doProcessEntries cfg client fs rem nm (e :: rest) b
        = (.error, (doProcessDirectoryEntry cfg client b fs rem nm e).2.1,
            (doProcessDirectoryEntry cfg client b fs rem nm e).2.2)) ∧
    (∀ (fs : Nat) (rem : Int) (nm : Bool) (e : FNode) (rest : List FNode) (b : CStr),
      (doProcessDirectoryEntry cfg client b fs rem nm e).1 ≠ MediaScanResult.error →
      (doProcessEntries cfg client fs rem nm (e :: rest) b).1
        = (doProcessEntries cfg client fs rem nm rest
            (doProcessDirectoryEntry cfg client b fs rem nm e).2.2).1) ∧
    (∀ (b : CStr) (fs : Nat) (rem : Int) (nm : Bool) (name : CStr) (statOk : Bool)
        (mt : Nat) (readable hasNoScan hasNoMedia : Bool) (entries : List FNode),
      ¬(name = str "." ∨ name = str "..") → ¬(rem < (name.length : Int) + 1) →
      (doProcessDirectory cfg client readable hasNoScan hasNoMedia entries
          (b.take fs ++ name ++ ['/']) (rem - name.length - 1)
          (nm || decide (name.headD ' ' = '.'))).1 = MediaScanResult.error →
      (doProcessDirectoryEntry cfg client b fs rem nm
          (.dir name statOk mt readable hasNoScan hasNoMedia entries)).1
        = MediaScanResult.error) ∧
    ((∀ rep, client rep = 0) →
      ∀ (readable hasNoScan hasNoMedia : Bool) (entries : List FNode) (buf : CStr)
          (pathRemaining : Int) (noMedia : Bool),
        (doProcessDirectory cfg client readable hasNoScan hasNoMedia entries
            buf pathRemaining noMedia).1 ≠ MediaScanResult.error) := by
  refine ⟨?root, ?longname, ?unreadable, ?shortcircuit, ?absorb, ?propagate, ?onlyclient⟩
  case root =>
    intro rd hns hnm es path h
    rw [processDirectory, if_pos h]
  case longname =>
    intro b fs rem nm e hfit
    cases e <;> rw [doProcessDirectoryEntry] <;> simp only [FNode.name] at hfit ⊢ <;>
      split <;> first | rfl | rw [if_pos hfit]
  case unreadable =>
    intro hns hnm es buf rem nm hsk hns2
    rw [doProcessDirectory, if_neg (by simp [hsk]), if_neg hns2]
    simp
  case shortcircuit =>
    intro fs rem nm e rest b herr
    rw [doProcessEntries]
    simp only [if_pos herr]
  case absorb =>
    intro fs rem nm e rest b herr
    rw [doProcessEntries]
    simp only [if_neg herr]
  case propagate =>
    intro b fs rem nm name statOk mt rd hns hnm es h1 h2 herr
    rw [doProcessDirectoryEntry]
    simp only [FNode.name]
    rw [if_neg h1, if_neg h2]
    by_cases hrep : statOk = true ∧ client ⟨b.take fs ++ name, mt, 0, true,
        nm || decide (name.headD ' ' = '.')⟩ ≠ 0
    · simp only [if_pos hrep]
    · simp only [if_neg hrep, if_pos herr]
  case onlyclient =>
    intro hcl rd hns hnm es buf rem nm
    exact (error_only_from_client cfg client hcl).1 rd hns hnm es buf rem nm

/-- A reporter that rejects every report with status 1. -/
def client1 : Client := fun _ => 1

/-- C8 witness: the theorem applied at concrete inputs: an over-length root
path, an over-long entry name, an unreadable directory, an erroring entry
followed by a sibling that is never examined, an absorbed `Skipped` entry,
an error propagating out of a subdirectory, and an error-free run under an
always-accepting client. -/
theorem C8_witness :
    processDirectory cfg0 client0 true false false [] (List.replicate 5000 'a')
      = (.skipped, []) ∧
    doProcessDirectoryEntry cfg0 client0 (str "/p/") 3 3 false
        (.file (str "longname") 1 2) = (.skipped, [], str "/p/") ∧
    doProcessDirectory cfg0 client0 false false false [.file (str "f") 1 2]
        (str "/p/") 100 false = (.skipped, [], str "/p/") ∧
    doProcessEntries cfg0 client1 3 100 false
        [.file (str "f") 1 2, .file (str "g") 3 4] (str "/p/")
      = (.error, (doProcessDirectoryEntry cfg0 client1 (str "/p/") 3 100 false
            (.file (str "f") 1 2)).2.1,
          (doProcessDirectoryEntry cfg0 client1 (str "/p/") 3 100 false
            (.file (str "f") 1 2)).2.2) ∧
    (doProcessEntries cfg0 client0 3 100 false
        [.special (str "s"), .file (str "g") 3 4] (str "/p/")).1
      = (doProcessEntries cfg0 client0 3 100 false [.file (str "g") 3 4]
          (doProcessDirectoryEntry cfg0 client0 (str "/p/") 3 100 false
            (.special (str "s"))).2.2).1 ∧
    (doProcessDirectoryEntry cfg0 client1 (str "/p/") 3 100 false
        (.dir (str "c") true 5 true false false [.file (str "f") 1 2])).1
      = MediaScanResult.error ∧
    (doProcessDirectory cfg0 client0 true false false [.file (str "f") 1 2]
        (str "/p/") 100 false).1 ≠ MediaScanResult.error := by
  refine ⟨(C8_theorem cfg0 client0).1 true false false [] (List.replicate 5000 'a')
      (by rw [List.length_replicate]; norm_num [PATH_MAX]),
    (C8_theorem cfg0 client0).2.1 (str "/p/") 3 3 false (.file (str "longname") 1 2)
      (by decide),
    (C8_theorem cfg0 client0).2.2.1 false false [.file (str "f") 1 2] (str "/p/") 100 false
      (by decide) (by decide),
    (C8_theorem cfg0 client1).2.2.2.1 3 100 false (.file (str "f") 1 2)
      [.file (str "g") 3 4] (str "/p/") ?e1,
    (C8_theorem cfg0 client0).2.2.2.2.1 3 100 false (.special (str "s"))
      [.file (str "g") 3 4] (str "/p/") ?e2,
    (C8_theorem cfg0 client1).2.2.2.2.2.1 (str "/p/") 3 100 false (str "c") true 5
      true false false [.file (str "f") 1 2] (by decide) (by decide) ?e3,
    (C8_theorem cfg0 client0).2.2.2.2.2.2 (fun _ => rfl) true false false
      [.file (str "f") 1 2] (str "/p/") 100 false⟩
  case e1 =>
    simp [doProcessDirectoryEntry, cfg0, client1, str, FNode.name]
  case e2 =>
    simp [doProcessDirectoryEntry, cfg0, client0, str, FNode.name]
  case e3 =>
    simp [doProcessDirectory, doProcessEntries, doProcessDirectoryEntry, cfg0, client1,
      shouldSkipDirectory, loadWhiteList, loadSkipList, str, FNode.name]

end MediaScan
